import Mathlib

/-!
# Verification of the okrchestra orchestration core

Shallow embedding of the okrchestra repository's durable job store,
scheduler, watcher and plan runner, with theorems settling the frozen
claims about them.

Modelling conventions, shared by all definitions below:

* `time.Time` values are modelled as a pair of a Unix second (`Int`) and a
  nanosecond component (`Nat`).  All timestamps the store persists are
  rendered with `time.RFC3339` (no fractional seconds), so a persisted
  `scheduled_at` column is modelled by the second component alone.  RFC 3339
  UTC strings compare lexicographically exactly as their instants compare
  numerically (for four-digit years), so SQL `ORDER BY` / `<=` on those TEXT
  columns is modelled by integer order on seconds.
* `Time.Truncate d` in Go rounds an absolute instant down to a multiple of
  `d` counted from the zero time, ignoring the location.  The Unix epoch is
  itself a multiple of both 24h and 30s from Go's zero time, so truncation
  is floor-division on Unix seconds.
* A job id is the string `type + "_" + scheduledAt.Format("2006-01-02T15:04:05")`.
  The timestamp rendering has fixed width, so the id is an injective
  rendering of the pair `(type, second)`; we model the id column by that
  pair and keep `renderJobId` for statements about the id's string form.
* SHA-256 content hashes are modelled by an injective function on the
  hashed bytes (`hashStr`); hash collisions are ignored.
* The SQLite row set of `daemon_jobs` is modelled as a list in rowid
  (insertion) order.  A `SELECT ... ORDER BY scheduled_at LIMIT 1` walks
  the `(status, scheduled_at)` index, whose entries with equal keys appear
  in rowid order, so ties on `scheduled_at` resolve to the first-inserted
  row.
-/

namespace Okrchestra

/-! ### Character-level string helpers

The Lean core implementations of `String.trim`, `String.splitOn`,
lexicographic `<` on `String`, etc. are defined by well-founded recursion
and do not reduce inside the kernel, so the string operations the Go
source uses are given structurally recursive definitions over the
character list here. -/

/-- Lexicographic order on character lists: the order in which both Go
and SQLite compare the strings involved here. -/
def charListLt : List Char → List Char → Bool
  | [], [] => false
  | [], _ :: _ => true
  | _ :: _, [] => false
  | a :: as, b :: bs => a < b || (a == b && charListLt as bs)

/-- Lexicographic string order. -/
def strLt (a b : String) : Bool := charListLt a.data b.data

/-- Whether the first list starts the second. -/
def listStarts : List Char → List Char → Bool
  | [], _ => true
  | _ :: _, [] => false
  | a :: as, b :: bs => a == b && listStarts as bs

/-- Go `strings.HasSuffix` / the suffix test behind `filepath.Ext`
comparisons. -/
def strEndsWith (s suffix : String) : Bool :=
  listStarts suffix.data.reverse s.data.reverse

/-- Split a character list at every occurrence of `sep`. -/
def splitChar (sep : Char) : List Char → List (List Char)
  | [] => [[]]
  | x :: xs =>
    match splitChar sep xs with
    | [] => [[]]
    | g :: gs => if x == sep then [] :: g :: gs else (x :: g) :: gs

/-- Decimal digits to a number; `none` on a non-digit. -/
def digitsToNatAux : List Char → Nat → Option Nat
  | [], acc => some acc
  | c :: cs, acc =>
    if c.isDigit then digitsToNatAux cs (acc * 10 + (c.toNat - 48)) else none

/-- A Go `time.Time`: Unix seconds plus nanoseconds. -/
structure GoTime where
  sec : Int
  nsec : Nat
deriving Repr, DecidableEq

/-- The persisted form of a job id: the source renders
`type + "_" + timestamp` with a fixed-width timestamp, an injective
encoding of this pair. -/
abbrev JobId := String × Int

/-- String rendering of a job id, as the source stores it.  The timestamp
part is rendered here by `toString` of the second; within a single
comparison the claims only compare ids that share the same second, for
which this rendering orders exactly like the source's fixed-width
date-time rendering. -/
def renderJobId (id : JobId) : String := id.1 ++ "_" ++ toString id.2

/-- One row of the `daemon_jobs` table (source: `Store` schema and `Job`
struct in the daemon package). -/
structure JobRow where
  id : JobId
  jobType : String
  status : String
  scheduledAt : Int
  startedAt : Option Int
  finishedAt : Option Int
  payloadJson : String
  resultJson : Option String
  leaseOwner : Option String
  leaseExpiresAt : Option Int
deriving Repr, DecidableEq

/-- The daemon store: `daemon_jobs` rows in rowid order plus the
`daemon_kv` table. -/
structure Store where
  jobs : List JobRow
  kv : List (String × String)
deriving Repr, DecidableEq

def Store.empty : Store := ⟨[], []⟩

/-- `GetKV`: returns the empty string when the key is absent, as the
source maps `sql.ErrNoRows` to `("", nil)`. -/
def getKV (s : Store) (key : String) : String :=
  match s.kv.find? (fun p => p.1 == key) with
  | some p => p.2
  | none => ""

/-- `SetKV`: `INSERT OR REPLACE` upsert. -/
def setKV (s : Store) (key value : String) : Store :=
  { s with kv := (key, value) :: s.kv.filter (fun p => p.1 != key) }

/-- The row predicate of `EnqueueUnique`'s existence query
(`WHERE type = ? AND scheduled_at = ?`). -/
def rowMatches (jobType : String) (sec : Int) (j : JobRow) : Bool :=
  j.jobType == jobType && j.scheduledAt == sec

/-- The row `EnqueueUnique` inserts: queued, with the id derived from
`(type, second)` and every nullable column NULL. -/
def queuedRow (jobType : String) (sec : Int) (payload : String) : JobRow :=
  { id := (jobType, sec)
    jobType := jobType
    status := "queued"
    scheduledAt := sec
    startedAt := none
    finishedAt := none
    payloadJson := payload
    resultJson := none
    leaseOwner := none
    leaseExpiresAt := none }

/-- `EnqueueUnique` (daemon store).  Truncates the scheduled time to the
second (RFC 3339 rendering), returns the existing row's id with
`created = false` when a row for `(type, second)` exists, otherwise
inserts a fresh queued row.  The `payload` argument stands for the
already-marshalled payload JSON. -/
def enqueueUnique (s : Store) (jobType : String) (scheduledAt : GoTime)
    (payload : String) : JobId × Bool × Store :=
  match s.jobs.find? (rowMatches jobType scheduledAt.sec) with
  | some existing => (existing.id, false, s)
  | none =>
    ((jobType, scheduledAt.sec), true,
      { s with jobs := s.jobs ++ [queuedRow jobType scheduledAt.sec payload] })

/-- Candidate predicate of `ClaimNext`'s selection query
(`status = 'queued' AND scheduled_at <= now`). -/
def eligible (now : Int) (j : JobRow) : Bool :=
  j.status == "queued" && decide (j.scheduledAt ≤ now)

/-- The row `ORDER BY scheduled_at ASC LIMIT 1` returns: smallest
`scheduled_at`, ties resolved to the earliest row in rowid order (see the
module comment on index traversal). -/
def selectMin : List JobRow → Option JobRow
  | [] => none
  | j :: rest =>
    match selectMin rest with
    | none => some j
    | some b => if b.scheduledAt < j.scheduledAt then some b else some j

/-- The `UPDATE` of `ClaimNext` applied to one row. -/
def claimUpdate (now : Int) (leaseOwner : String) (leaseFor : Int)
    (j : JobRow) : JobRow :=
  { j with
    status := "running"
    startedAt := some now
    leaseOwner := some leaseOwner
    leaseExpiresAt := some (now + leaseFor) }

/-- `GetJob`: first row with the given id. -/
def getJob (s : Store) (id : JobId) : Option JobRow :=
  s.jobs.find? (fun j => j.id == id)

/-- `ClaimNext` (daemon store): select the next due queued row, mark it
running with the lease, and return the re-hydrated row. -/
def claimNext (s : Store) (now : Int) (leaseOwner : String) (leaseFor : Int) :
    Option JobRow × Store :=
  match selectMin (s.jobs.filter (eligible now)) with
  | none => (none, s)
  | some j0 =>
    let s' : Store :=
      { s with jobs := s.jobs.map (fun r =>
          if r.id == j0.id then claimUpdate now leaseOwner leaseFor r else r) }
    (getJob s' j0.id, s')

/-- `json.Marshal(map[string]string{"error": msg})`. -/
def errorResultJson (msg : String) : String :=
  "\x7b\"error\":\"" ++ msg ++ "\"\x7d"

/-- `Succeed`: unconditional `UPDATE ... WHERE id = ?` to the succeeded
state.  `finishedAt` is the `time.Now()` the source takes inside the
call, passed explicitly here. -/
def succeed (s : Store) (id : JobId) (resultJson : String)
    (finishedAt : Int) : Store :=
  { s with jobs := s.jobs.map (fun r =>
      if r.id == id then
        { r with
          status := "succeeded"
          finishedAt := some finishedAt
          resultJson := some resultJson }
      else r) }

/-- `Fail`: unconditional `UPDATE ... WHERE id = ?` to the failed state,
serialising `{error: msg}` into `result_json`. -/
def fail (s : Store) (id : JobId) (msg : String) (finishedAt : Int) : Store :=
  { s with jobs := s.jobs.map (fun r =>
      if r.id == id then
        { r with
          status := "failed"
          finishedAt := some finishedAt
          resultJson := some (errorResultJson msg) }
      else r) }

/-! ## Scheduler (daemon package: `Scheduler.Tick`, `scheduleDailyAt`,
`scheduleWeeklyAt`, `scheduleWatchTicks`)

The scheduler's `time.Location` is modelled as a fixed offset (seconds
east of UTC); zones with DST are outside the model, and every concrete
input below uses UTC (offset 0), where the model is exact. -/

/-- Go `t.Truncate(d)` on Unix seconds (absolute multiples of `d`; the
Unix epoch is a multiple of every duration used here). -/
def truncGo (d t : Int) : Int := d * (t.fdiv d)

/-- Number of iterations of the loop
`for current := start; !current.After(bound); current = current.Add(step)`. -/
def stepCount (start step bound : Int) : Nat :=
  if start > bound then 0 else (bound - start).toNat / step.toNat + 1

/-- The values `current` takes in that loop, in order. -/
def stepList (start step bound : Int) : List Int :=
  (List.range (stepCount start step bound)).map
    (fun (i : Nat) => start + step * (i : Int))

/-- The `{"scheduled_time": t}` payload the scheduler marshals for each
emission (timestamp rendering abbreviated). -/
def scheduledTimePayload (t : Int) : String :=
  "\x7b\"scheduled_time\":\"" ++ toString t ++ "\"\x7d"

/-- `time.Date(Y, M, D, hour, minute, 0, 0, loc)` where `(Y, M, D)` is the
civil date of the instant `current` in the fixed-offset location `off`:
the start of `current`'s local day, at the given local wall-clock time. -/
def localWallClock (off current : Int) (hour minute : Int) : Int :=
  truncGo 86400 (current + off) + hour * 3600 + minute * 60 - off

/-- `scheduleDailyAt`: enumerates days starting the day AFTER the
watermark's (absolute) 24h truncation and enqueues the local `H:M`
instant of each enumerated day that falls in `(lastWatermark, now]`. -/
def scheduleDailyAt (off : Int) (lastWatermark now : Int) (jobType : String)
    (hour minute : Int) (s : Store) : Store :=
  let start := truncGo 86400 lastWatermark + 86400
  (stepList start 86400 now).foldl
    (fun st current =>
      let scheduledTime := localWallClock off current hour minute
      if scheduledTime > lastWatermark && !(scheduledTime > now) then
        (enqueueUnique st jobType ⟨scheduledTime, 0⟩
          (scheduledTimePayload scheduledTime)).2.2
      else st)
    s

/-- `time.Weekday` of an instant in the fixed-offset location `off`
(Sunday = 0; the Unix epoch was a Thursday = 4). -/
def weekdayAt (off t : Int) : Int := ((t + off).fdiv 86400 + 4) % 7

/-- The `for start.Weekday() != weekday` advance loop; at most six steps,
modelled with explicit fuel 7. -/
def advanceToWeekday (off : Int) (weekday : Int) : Nat → Int → Int
  | 0, t => t
  | fuel + 1, t =>
    if weekdayAt off t == weekday then t
    else advanceToWeekday off weekday fuel (t + 86400)

/-- `scheduleWeeklyAt`: like `scheduleDailyAt`, restricted to the given
weekday and stepping whole weeks. -/
def scheduleWeeklyAt (off : Int) (lastWatermark now : Int) (jobType : String)
    (weekday hour minute : Int) (s : Store) : Store :=
  let start0 := truncGo 86400 lastWatermark
  let start := advanceToWeekday off weekday 7 start0
  (stepList start (7 * 86400) now).foldl
    (fun st current =>
      let scheduledTime := localWallClock off current hour minute
      if scheduledTime > lastWatermark && !(scheduledTime > now) then
        (enqueueUnique st jobType ⟨scheduledTime, 0⟩
          (scheduledTimePayload scheduledTime)).2.2
      else st)
    s

/-- `scheduleWatchTicks`: enqueues a `watch_tick` at every aligned
30-second boundary after the watermark's truncation, up to `now`. -/
def scheduleWatchTicks (lastWatermark now : Int) (s : Store) : Store :=
  let start := truncGo 30 lastWatermark + 30
  (stepList start 30 now).foldl
    (fun st current =>
      (enqueueUnique st "watch_tick" ⟨current, 0⟩
        (scheduledTimePayload current)).2.2)
    s

/-- The stored form of the scheduler watermark (`RFC3339`, modelled by the
second count) and its parse.  An empty KV value parses to Go's zero time,
taken here as `none`. -/
def renderWatermark (t : Int) : String := toString t

def parseWatermark (s : String) : Option Int :=
  match s.data with
  | [] => none
  | '-' :: rest => (digitsToNatAux rest 0).map (fun n => -(n : Int))
  | cs => (digitsToNatAux cs 0).map (fun n => (n : Int))

/-- `Scheduler.Tick`: read the watermark (first tick only sets it), run
the daily `kr_measure` 02:00 trigger, the weekly Monday 09:00
`plan_generate` and Monday 09:15 `plan_execute` triggers and the
30-second `watch_tick` trigger, then advance the watermark to `now`. -/
def tick (off : Int) (s : Store) (now : Int) : Store :=
  match parseWatermark (getKV s "scheduler_watermark") with
  | none => setKV s "scheduler_watermark" (renderWatermark now)
  | some w =>
    let s1 := scheduleDailyAt off w now "kr_measure" 2 0 s
    let s2 := scheduleWeeklyAt off w now "plan_generate" 1 9 0 s1
    let s3 := scheduleWeeklyAt off w now "plan_execute" 1 9 15 s2
    let s4 := scheduleWatchTicks w now s3
    setKV s4 "scheduler_watermark" (renderWatermark now)

/-- Jobs of a given type, in rowid order. -/
def jobsOfType (s : Store) (jobType : String) : List JobRow :=
  s.jobs.filter (fun j => j.jobType == jobType)

/-! ## Watcher (daemon package: `watchFile`, `watchDirectory`,
`handleWatchTick`)

File contents are modelled as strings; `hashFile` (SHA-256 of the
contents) is modelled by the injective `hashStr`.  A watched directory is
the list of `(path, contents)` pairs its walk yields, in walk order with
distinct paths; an absent directory is the empty list (the walk callback
swallows `IsNotExist`).  The JSON blobs the watcher persists in the KV
are modelled by explicit injective encodings that keep exactly the fields
the source reads back (the content hash per path). -/

/-- SHA-256, modelled as an injective function of the hashed bytes. -/
def hashStr (s : String) : String := s

/-- Encoding of a single-file `WatchState` as stored in the KV; only the
`Hash` field is ever read back. -/
def encodeWatchState (hash : String) : String := "hash:" ++ hash

def decodeWatchStateHash (s : String) : String :=
  match s.data with
  | 'h' :: 'a' :: 's' :: 'h' :: ':' :: rest => ⟨rest⟩
  | _ => ""

/-- `watchFile`: compare the file's content hash against the stored state
and persist the new state.  Returns `(changed, store)`.  When the file is
absent the source reports a change iff prior state exists and — in either
case — persists nothing. -/
def watchFile (s : Store) (file : Option String) (kvKey : String) :
    Bool × Store :=
  match file with
  | none =>
    let stateJson := getKV s kvKey
    if stateJson = "" then (false, s) else (true, s)
  | some contents =>
    let hash := hashStr contents
    let stateJson := getKV s kvKey
    let prevHash := decodeWatchStateHash stateJson
    let changed := prevHash != hash
    (changed, setKV s kvKey (encodeWatchState hash))

/-- `filepath.Ext(path)` is one of the watched extensions.  A path's
extension is `".yml"`, `".yaml"` or `".json"` exactly when the path ends
with that suffix. -/
def hasWatchedExt (path : String) : Bool :=
  strEndsWith path ".yml" || strEndsWith path ".yaml" || strEndsWith path ".json"

/-- Encoding of the per-directory `map[path]WatchState` as stored in the
KV; only each path's hash is ever read back.  (Concrete inputs below use
paths free of the separator characters.) -/
def encodeDirState (entries : List (String × String)) : String :=
  String.join (entries.map (fun pc => pc.1 ++ "=" ++ pc.2 ++ ";"))

def decodeDirState (s : String) : List (String × String) :=
  ((splitChar ';' s.data).filter (fun e => !e.isEmpty)).map (fun e =>
    match splitChar '=' e with
    | [p, h] => (⟨p⟩, ⟨h⟩)
    | _ => ("", ""))

/-- Association lookup for the previous-state map. -/
def dirLookup (entries : List (String × String)) (path : String) :
    Option String :=
  match entries.find? (fun pc => pc.1 == path) with
  | some pc => some pc.2
  | none => none

/-- `watchDirectory`: hash every file with a watched extension, diff
against the stored map (new or different hash ⇒ changed; gone ⇒ reported
with a `" (deleted)"` suffix), persist the new map wholesale, and return
the changed paths. -/
def watchDirectory (s : Store) (files : List (String × String))
    (kvKeyBase : String) : List String × Store :=
  let current := (files.filter (fun pc => hasWatchedExt pc.1)).map
    (fun pc => (pc.1, hashStr pc.2))
  let stateKey := kvKeyBase ++ "_state"
  let prev := decodeDirState (getKV s stateKey)
  let changedNew := (current.filter (fun pc =>
    match dirLookup prev pc.1 with
    | none => true
    | some h => h != pc.2)).map (fun pc => pc.1)
  let deleted := (prev.filter (fun pc =>
    (dirLookup current pc.1).isNone)).map (fun pc => pc.1 ++ " (deleted)")
  (changedNew ++ deleted, setKV s stateKey (encodeDirState current))

/-- `filepath.Base`. -/
def filepathBase (path : String) : String :=
  match (splitChar '/' path.data).getLast? with
  | some b => ⟨b⟩
  | none => path

/-- The watched slice of the workspace as `handleWatchTick` sees it:
the `okrs/` tree, `metrics/manual.yml`, and the `artifacts/plans/` tree. -/
structure WatchedFS where
  okrsFiles : List (String × String)
  manualYml : Option String
  plansFiles : List (String × String)
deriving Repr, DecidableEq

/-- Outcome of one `watch_tick`: the handler's result `status` field, the
change descriptions, and the updated store. -/
structure WatchTickResult where
  status : String
  changes : List String
  store : Store
deriving Repr, DecidableEq

/-- `handleWatchTick`: poll the three watched locations in order and
enqueue the configured follow-up jobs at the tick's `time.Now()`
(`now`, taken once). -/
def handleWatchTick (s : Store) (fs : WatchedFS) (now : Int) :
    WatchTickResult :=
  let (okrsChanges, s1) := watchDirectory s fs.okrsFiles "watch_okrs_dir"
  let (changes1, s2) :=
    if okrsChanges.length > 0 then
      let s' := (enqueueUnique s1 "kr_measure" ⟨now, 0⟩ "okrs_changed").2.2
      let s'' := (enqueueUnique s' "plan_generate" ⟨now, 0⟩ "okrs_changed").2.2
      (["okrs: " ++ toString okrsChanges.length ++ " files changed"], s'')
    else ([], s1)
  let (manualChanged, s3) := watchFile s2 fs.manualYml "watch_manual_yml"
  let (changes2, s4) :=
    if manualChanged then
      (changes1 ++ ["manual.yml changed"],
        (enqueueUnique s3 "kr_measure" ⟨now, 0⟩ "manual_yml_changed").2.2)
    else (changes1, s3)
  let (plansChanges, s5) := watchDirectory s4 fs.plansFiles "watch_plans_dir"
  let (changes3, s6) :=
    if plansChanges.length > 0 then
      (changes2 ++ ["plans: " ++ toString plansChanges.length ++ " files changed"],
        plansChanges.foldl
          (fun st planFile =>
            if filepathBase planFile == "plan.json" then
              (enqueueUnique st "plan_execute" ⟨now, 0⟩ planFile).2.2
            else st)
          s5)
    else (changes2, s5)
  { status := if changes3.length > 0 then "changes_detected" else "no_changes"
    changes := changes3
    store := s6 }

/-! ## JSON values and the two result validators

`validateAgentResult` is the validation the plan runner
(`internal/planner`, `RunPlan`) performs on `result.json`;
`ValidateResultJSON` is the strict validator of the `guardrails` package.
JSON documents are modelled by `JVal`; objects carry their fields with
distinct keys (Go decodes objects into maps).  Go's `json.Unmarshal` of a
JSON `null` into a string or slice succeeds and leaves the zero value;
both validators' branches below reproduce that. -/

inductive JVal where
  | str (s : String)
  | num (n : Int)
  | jbool (b : Bool)
  | jnull
  | arr (elems : List JVal)
  | obj (fields : List (String × JVal))

/-- Whether `json.Unmarshal` into `[]string` succeeds on this value
(`null` yields a nil slice without error). -/
def decodesAsStringArray : JVal → Bool
  | .jnull => true
  | .arr elems => elems.all (fun e => match e with | .str _ => true | _ => false)
  | _ => false

/-- The string `json.Unmarshal` into `string` yields, when it succeeds
(`null` leaves the zero value `""`). -/
def decodedString : JVal → Option String
  | .str s => some s
  | .jnull => some ""
  | _ => none

/-- `strings.TrimSpace` (the whitespace of every concrete input below is
ASCII, where Go and this model trim identically). -/
def trimSpace (s : String) : String :=
  ⟨((s.data.dropWhile Char.isWhitespace).reverse.dropWhile
      Char.isWhitespace).reverse⟩

/-- Field lookup in a decoded JSON object. -/
def dirLookupJ (fields : List (String × JVal)) (k : String) : Option JVal :=
  match fields.find? (fun f => f.1 == k) with
  | some f => some f.2
  | none => none

/-- `validateAgentResult` (planner package): the check `RunPlan` applies
to each item's `result.json`.  Returns the error message, or `none` for
acceptance.  Input `none` models an unreadable/missing file; a non-object
document fails the `map[string]json.RawMessage` decode. -/
def validateAgentResult (doc : Option JVal) : Option String :=
  match doc with
  | none => some "read result.json"
  | some v =>
    match v with
    | .obj fields =>
      let get := fun (k : String) => dirLookupJ fields k
      match get "summary" with
      | none => some "missing field: summary"
      | some vs =>
        match get "proposed_changes" with
        | none => some "missing field: proposed_changes"
        | some vc =>
          match get "kr_impact_claim" with
          | none => some "missing field: kr_impact_claim"
          | some vk =>
            match decodedString vs with
            | none => some "summary must be a non-empty string"
            | some ssum =>
              if trimSpace ssum = "" then
                some "summary must be a non-empty string"
              else if !decodesAsStringArray vc then
                some "proposed_changes must be an array of strings"
              else
                match decodedString vk with
                | none => some "kr_impact_claim must be a non-empty string"
                | some sk =>
                  if trimSpace sk = "" then
                    some "kr_impact_claim must be a non-empty string"
                  else none
    | _ => some "parse result.json"

/-- The closed field set of `guardrails.ValidateResultJSON`. -/
def allowedResultFields : List String :=
  ["schema_version", "summary", "proposed_changes", "kr_targets",
   "kr_impact_claim"]

/-- Whether `json.Unmarshal` of the document into the typed
`ResultSchema` struct succeeds (wrong-typed fields fail; `null` fields
decode to zero values). -/
def resultSchemaDecodes (fields : List (String × JVal)) : Bool :=
  (match dirLookupJ fields "schema_version" with
   | none => true
   | some v => (decodedString v).isSome) &&
  (match dirLookupJ fields "summary" with
   | none => true
   | some v => (decodedString v).isSome) &&
  (match dirLookupJ fields "proposed_changes" with
   | none => true
   | some v => decodesAsStringArray v) &&
  (match dirLookupJ fields "kr_targets" with
   | none => true
   | some v => decodesAsStringArray v) &&
  (match dirLookupJ fields "kr_impact_claim" with
   | none => true
   | some v => (decodedString v).isSome)

/-- The decoded `ResultSchema` string field (zero value when absent or
null). -/
def schemaStringField (fields : List (String × JVal)) (k : String) : String :=
  match dirLookupJ fields k with
  | some (.str s) => s
  | _ => ""

/-- Whether the decoded `[]string` field is nil (absent or JSON null):
`ValidateResultJSON` rejects nil arrays. -/
def schemaArrayIsNil (fields : List (String × JVal)) (k : String) : Bool :=
  match dirLookupJ fields k with
  | some (.arr _) => false
  | _ => true

/-- `guardrails.ValidateResultJSON`: the strict closed-schema validation,
returning the error message or `none` for acceptance. -/
def validateResultJSON (doc : Option JVal) : Option String :=
  match doc with
  | none => some "read result.json"
  | some v =>
    match v with
    | .obj fields =>
      let extraFields := (fields.map (fun f => f.1)).filter
        (fun k => !allowedResultFields.contains k)
      if extraFields.length > 0 then
        some "result.json contains disallowed fields"
      else if !(allowedResultFields.all
          (fun k => (dirLookupJ fields k).isSome)) then
        some "missing required field"
      else if !resultSchemaDecodes fields then
        some "parse result.json structure"
      else if schemaStringField fields "schema_version" != "1.0" then
        some "schema_version must be 1.0"
      else if trimSpace (schemaStringField fields "summary") = "" then
        some "summary must be a non-empty string"
      else if schemaArrayIsNil fields "proposed_changes" then
        some "proposed_changes must be an array of strings"
      else if schemaArrayIsNil fields "kr_targets" then
        some "kr_targets must be an array of strings"
      else if trimSpace (schemaStringField fields "kr_impact_claim") = "" then
        some "kr_impact_claim must be a non-empty string"
      else none
    | _ => some "parse result.json"

/-! ## Plans (planner package: `Plan`, `PlanItem`, `ValidatePlan`,
`ValidatePlanItem`, `LoadPlan`) -/

structure ExpectedMetricChange where
  metricKey : String
  direction : String
  baseline : Int
  target : Int
  delta : Int
  rationale : String
  confidence : Int
deriving Repr, DecidableEq

structure PlanItem where
  id : String
  objectiveId : String
  krId : String
  hypothesis : String
  task : String
  agentRole : String
  expectedMetricChange : ExpectedMetricChange
  evidencePlan : List String
deriving Repr, DecidableEq

structure Plan where
  id : String
  asOf : String
  generatedAt : String
  okrsDir : String
  items : List PlanItem
deriving Repr, DecidableEq

/-- `ValidatePlanItem`: first failing rule, in source order.  (The
`baseline`/`target`/`delta` numbers are never inspected; their numeric
type is immaterial to every claim.) -/
def validatePlanItem (item : PlanItem) : Option String :=
  if trimSpace item.objectiveId = "" then some "objective_id is required"
  else if trimSpace item.krId = "" then some "kr_id is required"
  else if trimSpace item.task = "" then some "task is required"
  else if trimSpace item.agentRole = "" then some "agent_role is required"
  else if trimSpace item.expectedMetricChange.metricKey = "" then
    some "expected_metric_change.metric_key is required"
  else
    let direction := trimSpace item.expectedMetricChange.direction
    if direction = "" then some "expected_metric_change.direction is required"
    else if direction ≠ "increase" ∧ direction ≠ "decrease" then
      some "expected_metric_change.direction must be increase or decrease"
    else none

/-- The indexed item loop of `ValidatePlan`. -/
def validatePlanItems : List PlanItem → Option String
  | [] => none
  | item :: rest =>
    match validatePlanItem item with
    | some e => some ("plan item: " ++ e)
    | none => validatePlanItems rest

/-- `ValidatePlan`. -/
def validatePlan (plan : Plan) : Option String :=
  if trimSpace plan.id = "" then some "plan id is required"
  else if trimSpace plan.asOf = "" then some "plan as_of is required"
  else if plan.items.length = 0 then
    some "plan must include at least one item"
  else validatePlanItems plan.items

/-- `LoadPlan`, from the already-parsed document onward (`os.ReadFile`
and `json.Unmarshal` failures precede validation and are outside the
model): return the plan iff it validates. -/
def loadPlan (plan : Plan) : Except String Plan :=
  match validatePlan plan with
  | some e => .error e
  | none => .ok plan

/-! ## Protected-tree snapshot (guardrails package: `SnapshotDirHash`)
and the plan runner's per-item protocol (planner package: `RunPlan`)

A directory is a list of `(relative path, contents)` pairs with distinct
paths (an absent directory is modelled separately by `SnapshotDirHash`
returning `""` in the source; the claims only use present directories).
The snapshot is SHA-256 over the sorted `(path, file hash)` sequence,
modelled injectively via `hashStr`. -/

/-- `sort.Strings`, via insertion sort (same ascending result on the
distinct paths involved). -/
def insertSorted (x : String) : List String → List String
  | [] => [x]
  | y :: ys => if strLt x y then x :: y :: ys else y :: insertSorted x ys

def sortStrings (l : List String) : List String :=
  l.foldr insertSorted []

/-- `guardrails.SnapshotDirHash` on a present directory. -/
def snapshotDirHash (files : List (String × String)) : String :=
  let sortedPaths := sortStrings (files.map (fun pc => pc.1))
  hashStr (String.join (sortedPaths.map (fun rel =>
    rel ++ "|" ++ (match dirLookup files rel with
      | some c => hashStr c
      | none => ""))))

/-- What the agent adapter's `Run` returned for one item. -/
structure AdapterOutcome where
  exitCode : Int
  transcriptPath : String
  runErr : Option String
deriving Repr, DecidableEq

/-- The observables of one item's environment that decide the runner's
behaviour: the protected `okrs/` tree before and after the adapter ran,
and the decoded contents of `<item_dir>/result.json` afterwards (`none`
when missing or unreadable). -/
structure ItemEnv where
  okrsBefore : List (String × String)
  okrsAfter : List (String × String)
  resultJson : Option JVal

/-- The outcome `RunPlan` produces for one item. -/
structure ItemOutcome where
  succeeded : Bool
  abortError : Option String
  filesWritten : List String
  auditTypes : List String
deriving Repr, DecidableEq

/-- One iteration of `RunPlan`'s item loop.  The runner writes
`prompt.md`, invokes the adapter, validates `result.json` with
`validateAgentResult`, and aborts the run when validation fails; an
adapter error with a valid result is recorded as non-fatal.
`filesWritten` lists the files the runner itself writes into the item
directory, and `auditTypes` the audit events it emits for the item. -/
def runPlanItem (item : PlanItem) (env : ItemEnv) (adapter : AdapterOutcome) :
    ItemOutcome :=
  let validateErr := validateAgentResult env.resultJson
  match adapter.runErr, validateErr with
  | some e, some ve =>
    { succeeded := false
      abortError := some ("agent run failed for item " ++ item.id ++ ": " ++
        e ++ " (result: " ++ ve ++ ")")
      filesWritten := ["prompt.md"]
      auditTypes := ["plan_item_started", "plan_item_finished"] }
  | some _, none =>
    { succeeded := true
      abortError := none
      filesWritten := ["prompt.md"]
      auditTypes := ["plan_item_started", "plan_item_finished"] }
  | none, some ve =>
    { succeeded := false
      abortError := some ("agent result invalid for item " ++ item.id ++
        ": " ++ ve)
      filesWritten := ["prompt.md"]
      auditTypes := ["plan_item_started", "plan_item_finished"] }
  | none, none =>
    { succeeded := true
      abortError := none
      filesWritten := ["prompt.md"]
      auditTypes := ["plan_item_started", "plan_item_finished"] }

/-! ## Store operation sequences -/

/-- One call against the store's mutating job interface. -/
inductive StoreOp where
  | enq (jobType : String) (scheduledAt : GoTime) (payload : String)
  | claimOp (now : Int) (owner : String) (leaseFor : Int)
  | succeedOp (id : JobId) (resultJson : String) (finishedAt : Int)
  | failOp (id : JobId) (msg : String) (finishedAt : Int)
deriving Repr, DecidableEq

def applyOp (s : Store) : StoreOp → Store
  | .enq ty t p => (enqueueUnique s ty t p).2.2
  | .claimOp now owner leaseFor => (claimNext s now owner leaseFor).2
  | .succeedOp id r fAt => succeed s id r fAt
  | .failOp id m fAt => fail s id m fAt

def applyOps (ops : List StoreOp) (s : Store) : Store := ops.foldl applyOp s

/-! ## Concrete inputs used by the claim theorems -/

/-- A well-formed agent result: all five schema fields, correctly typed. -/
def resultDocGood : JVal :=
  .obj [("schema_version", .str "1.0"), ("summary", .str "ok"),
        ("proposed_changes", .arr []), ("kr_targets", .arr []),
        ("kr_impact_claim", .str "none")]

/-- The spec's scenario-5 result: the five valid fields plus an unknown
`extra` field. -/
def resultDocExtra : JVal :=
  .obj [("schema_version", .str "1.0"), ("summary", .str "ok"),
        ("proposed_changes", .arr []), ("kr_targets", .arr []),
        ("kr_impact_claim", .str "none"), ("extra", .num 1)]

/-- A result with neither `schema_version` nor `kr_targets`. -/
def resultDocNoVersion : JVal :=
  .obj [("summary", .str "ok"), ("proposed_changes", .arr []),
        ("kr_impact_claim", .str "none")]

/-- A concrete plan item (contents immaterial to the runner's outcome). -/
def sampleMetricChange : ExpectedMetricChange :=
  { metricKey := "pr_throughput"
    direction := "increase"
    baseline := 4
    target := 8
    delta := 4
    rationale := ""
    confidence := 0 }

def sampleItem : PlanItem :=
  { id := "ITEM-1"
    objectiveId := "obj-1"
    krId := "kr-1"
    hypothesis := "h"
    task := "t"
    agentRole := "engineer"
    expectedMetricChange := sampleMetricChange
    evidencePlan := [] }

/-- Protected `okrs/` tree before and after an adapter run that rewrote
`org.yml`. -/
def okrsTreeBefore : List (String × String) := [("org.yml", "objectives: []")]

def okrsTreeAfter : List (String × String) := [("org.yml", "objectives: [hacked]")]

/-- The item environment of the guardrail scenario: the adapter modified
the protected tree and wrote a perfectly valid `result.json`, exiting
cleanly. -/
def guardrailEnv : ItemEnv :=
  { okrsBefore := okrsTreeBefore
    okrsAfter := okrsTreeAfter
    resultJson := some resultDocGood }

def cleanAdapter : AdapterOutcome :=
  { exitCode := 0, transcriptPath := "transcript.log", runErr := none }

/-- The item environment of the schema scenario: clean adapter run whose
`result.json` carries the unknown `extra` field. -/
def extraFieldEnv : ItemEnv :=
  { okrsBefore := okrsTreeBefore
    okrsAfter := okrsTreeBefore
    resultJson := some resultDocExtra }

/-- C5 scenario: watermark 1970-01-01T01:59:30Z, tick at
1970-01-01T02:00:00Z, in zone UTC.  The daily `kr_measure` trigger fires
at 02:00 local, i.e. instant 7200, inside `(7170, 7200]` and on the
watermark's own local date. -/
def storeWatermark7170 : Store :=
  setKV Store.empty "scheduler_watermark" (renderWatermark 7170)

/-- C6 scenario: watermark 1970-01-01T00:00:10Z (`T = 10`), tick at
`now = T + 1·30s = 40`. -/
def storeWatermark10 : Store :=
  setKV Store.empty "scheduler_watermark" (renderWatermark 10)

/-- C7 scenario: `metrics/manual.yml` present at the first tick, deleted
before the second, still absent at the third; both watched directories
empty throughout. -/
def fsManualPresent : WatchedFS :=
  { okrsFiles := [], manualYml := some "metric: 1", plansFiles := [] }

def fsManualAbsent : WatchedFS :=
  { okrsFiles := [], manualYml := none, plansFiles := [] }

def watchTick1 : WatchTickResult := handleWatchTick Store.empty fsManualPresent 0

def watchTick2 : WatchTickResult := handleWatchTick watchTick1.store fsManualAbsent 30

def watchTick3 : WatchTickResult := handleWatchTick watchTick2.store fsManualAbsent 60

/-- C4 scenario: two jobs enqueued at the same second, the `"b"`-typed
one first. -/
def storeTwoTypesSameSecond : Store :=
  (enqueueUnique
    ((enqueueUnique Store.empty "b" ⟨0, 0⟩ "pb").2.2) "a" ⟨0, 0⟩ "pa").2.2

/-- C8 scenario: enqueue, claim and succeed one job, then call `Fail` on
the already-succeeded row. -/
def opsToSucceeded : List StoreOp :=
  [.enq "t" ⟨0, 0⟩ "p", .claimOp 0 "worker" 30, .succeedOp ("t", 0) "done" 1]

def opsFailAfter : List StoreOp := [.failOp ("t", 0) "boom" 2]

/-- C9 scenario: a plan whose single item has an empty `id` but satisfies
every check `ValidatePlanItem` actually performs. -/
def itemEmptyId : PlanItem :=
  { id := ""
    objectiveId := "obj-1"
    krId := "kr-1"
    hypothesis := ""
    task := "t"
    agentRole := "engineer"
    expectedMetricChange := sampleMetricChange
    evidencePlan := [] }

def planWithEmptyItemId : Plan :=
  { id := "p-1"
    asOf := "2024-01-01"
    generatedAt := ""
    okrsDir := ""
    items := [itemEmptyId] }

/-- The daily firing instants the spec prescribes, stated from its words:
"Enumerate each local date whose H:M falls in the window", the window
being the open interval `(watermark, now]`.  Spec-side definition, to be
compared with the source's `scheduleDailyAt`. -/
def specDailyFirings (off w now hour minute : Int) : List Int :=
  let dayLo := (w + off).fdiv 86400
  let dayHi := (now + off).fdiv 86400
  ((stepList (dayLo * 86400) 86400 (dayHi * 86400)).map
    (fun dayStart => dayStart + hour * 3600 + minute * 60 - off)).filter
    (fun t => decide (w < t) && decide (t ≤ now))

/-! ### Enqueue-call sequences (for the uniqueness claims) -/

/-- One `EnqueueUnique` call. -/
structure EnqCall where
  jobType : String
  scheduledAt : GoTime
  payload : String
deriving Repr, DecidableEq

/-- Run a sequence of `EnqueueUnique` calls, collecting each call's
`(job_id, created)` return value. -/
def enqueueSeq : List EnqCall → Store → List (JobId × Bool) × Store
  | [], s => ([], s)
  | c :: rest, s =>
    let r := enqueueUnique s c.jobType c.scheduledAt c.payload
    let next := enqueueSeq rest r.2.2
    ((r.1, r.2.1) :: next.1, next.2)

/-- Whether a call targets the `(type, second-truncated instant)` pair. -/
def callMatches (jobType : String) (sec : Int) (c : EnqCall) : Bool :=
  c.jobType == jobType && c.scheduledAt.sec == sec

/-- The return values of exactly those calls in the sequence that target
the given `(type, second)` pair, in call order. -/
def matchingOutputs (calls : List EnqCall) (s : Store) (jobType : String)
    (sec : Int) : List (JobId × Bool) :=
  ((calls.zip (enqueueSeq calls s).1).filter
    (fun p => callMatches jobType sec p.1)).map (fun p => p.2)

/-- Number of job rows for the `(type, second)` pair. -/
def countRows (s : Store) (jobType : String) (sec : Int) : Nat :=
  (s.jobs.filter (rowMatches jobType sec)).length

/-- Construction invariant of the store: every row's id is the rendering
of its own `(type, scheduled_at)` pair. -/
def WellFormedJobs (s : Store) : Prop :=
  ∀ r ∈ s.jobs, r.id = (r.jobType, r.scheduledAt)

/-- C10 witness scenario: a store holding one job row. -/
def storeOneRow : Store := (enqueueUnique Store.empty "x" ⟨5, 0⟩ "orig").2.2

def rowX : JobRow := queuedRow "x" 5 "orig"

/-- The first-inserted row of `storeTwoTypesSameSecond`. -/
def rowB : JobRow := queuedRow "b" 0 "pb"

/-- The single row of the C8 scenario after `Succeed`, and after the
subsequent `Fail`. -/
def rowSucceededW : JobRow :=
  { id := ("t", 0)
    jobType := "t"
    status := "succeeded"
    scheduledAt := 0
    startedAt := some 0
    finishedAt := some 1
    payloadJson := "p"
    resultJson := some "done"
    leaseOwner := some "worker"
    leaseExpiresAt := some 30 }

def rowFailedW : JobRow :=
  { rowSucceededW with
    status := "failed"
    finishedAt := some 2
    resultJson := some (errorResultJson "boom") }

/-! ## Claim theorems -/

/-- Equation lemma: `EnqueueUnique` when a row for the pair exists. -/
theorem enqueueUnique_found (s : Store) (ty : String) (t : GoTime)
    (p : String) (r : JobRow)
    (h : s.jobs.find? (rowMatches ty t.sec) = some r) :
    enqueueUnique s ty t p = (r.id, false, s) := by
  simp only [enqueueUnique, h]

/-- Equation lemma: `EnqueueUnique` when no row for the pair exists. -/
theorem enqueueUnique_notFound (s : Store) (ty : String) (t : GoTime)
    (p : String)
    (h : s.jobs.find? (rowMatches ty t.sec) = none) :
    enqueueUnique s ty t p =
      ((ty, t.sec), true,
        { s with jobs := s.jobs ++ [queuedRow ty t.sec p] }) := by
  simp only [enqueueUnique, h]

/-- C5: the spec requires the daily trigger to enqueue one `kr_measure`
job for every local date whose 02:00 instant lies in `(watermark, now]`;
with watermark 01:59:30 and now 02:00:00 of the same UTC date, that
window contains the 02:00 firing (instant 7200), yet `Scheduler.Tick`
enqueues no `kr_measure` job at all, because `scheduleDailyAt` starts
enumerating at the day after the watermark.  (The tick is live: it does
emit its `watch_tick`.) -/
theorem scheduleDailyAt_skips_watermark_date :
    specDailyFirings 0 7170 7200 2 0 = [7200] ∧
    jobsOfType (tick 0 storeWatermark7170 7200) "kr_measure" = [] ∧
    (jobsOfType (tick 0 storeWatermark7170 7200) "watch_tick").map
      JobRow.scheduledAt = [7200] := by
  refine ⟨by decide, by decide, by decide⟩

/-- C7: the watched single file `metrics/manual.yml` exists at tick 1, is
deleted before tick 2 and stays absent.  Nothing changes between tick 2
and tick 3 (both see the identical filesystem), yet tick 3 still reports
a change and enqueues a fresh `kr_measure` job, because `watchFile` never
persists the deletion: the stale state makes every later tick re-report
it.  The spec requires the second of two changeless ticks to emit zero
follow-up jobs. -/
theorem watchFile_rereports_deletion :
    watchTick2.status = "changes_detected" ∧
    watchTick3.status = "changes_detected" ∧
    (jobsOfType watchTick3.store "kr_measure").map JobRow.scheduledAt =
      [0, 30, 60] ∧
    watchTick3.store.jobs.length = watchTick2.store.jobs.length + 1 := by
  refine ⟨by decide, by decide, by decide, by decide⟩

/-- C1: an adapter run that modifies the protected `okrs/` tree (the
before/after snapshots differ) while returning cleanly with a valid
`result.json`.  `RunPlan` marks the item successful, writes no
`violation.json` (its only write into the item directory is `prompt.md`)
and emits no `guardrail_violation` audit event: it never invokes the
`guardrails` integrity check at all. -/
theorem runPlanItem_ignores_protected_tree :
    snapshotDirHash okrsTreeBefore ≠ snapshotDirHash okrsTreeAfter ∧
    (runPlanItem sampleItem guardrailEnv cleanAdapter).succeeded = true ∧
    (runPlanItem sampleItem guardrailEnv cleanAdapter).abortError = none ∧
    "violation.json" ∉ (runPlanItem sampleItem guardrailEnv cleanAdapter).filesWritten ∧
    "guardrail_violation" ∉ (runPlanItem sampleItem guardrailEnv cleanAdapter).auditTypes := by
  refine ⟨by decide, by decide, by decide, by decide, by decide⟩

/-- C2: the spec's scenario-5 result file — the five valid fields plus an
unknown `extra` field — is accepted by the plan runner's
`validateAgentResult` (the item succeeds), although the guardrails
package's strict `ValidateResultJSON` rejects it; so does a result
missing `schema_version` and `kr_targets` entirely. -/
theorem validateAgentResult_not_closed_schema :
    validateAgentResult (some resultDocExtra) = none ∧
    (validateResultJSON (some resultDocExtra)).isSome = true ∧
    (runPlanItem sampleItem extraFieldEnv cleanAdapter).succeeded = true ∧
    validateAgentResult (some resultDocNoVersion) = none ∧
    (validateResultJSON (some resultDocNoVersion)).isSome = true := by
  refine ⟨by decide, by decide, by decide, by decide, by decide⟩

/-- C4 counterexample: two queued jobs share `scheduled_at = 0`; the
`"b"`-typed one was inserted first.  `ClaimNext` returns the `"b"` job,
although the eligible `"a"` job has the same `scheduled_at` and a
lexicographically smaller id, so the claimed `(scheduled_at, id)`
ordering is violated: ties are broken by insertion (rowid) order. -/
theorem claimNext_ignores_id_order :
    ((claimNext storeTwoTypesSameSecond 0 "w" 30).1.map JobRow.id) =
      some ("b", 0) ∧
    (∃ r ∈ storeTwoTypesSameSecond.jobs, eligible 0 r = true ∧
      r.scheduledAt = 0 ∧ strLt (renderJobId r.id) (renderJobId ("b", 0)) = true) := by
  refine ⟨by decide, ?_⟩
  refine ⟨{ id := ("a", 0), jobType := "a", status := "queued",
            scheduledAt := 0, startedAt := none, finishedAt := none,
            payloadJson := "pa", resultJson := none, leaseOwner := none,
            leaseExpiresAt := none }, by decide, by decide, by decide, by decide⟩

/-- C6 counterexample: with watermark `T = 10` and `now = T + 1·30s = 40`,
the tick creates exactly one `watch_tick` job, but at the aligned
boundary 30, not at `T + 30s = 40` as claimed. -/
theorem scheduleWatchTicks_aligned_not_offset :
    (jobsOfType (tick 0 storeWatermark10 40) "watch_tick").map
      JobRow.scheduledAt = [30] ∧ (30 : Int) ≠ 10 + 30 := by
  refine ⟨by decide, by decide⟩

/-- C8 counterexample: after `Succeed`, the row is terminal
(`succeeded`), yet a subsequent `Fail` on the same id rewrites it to
`failed`: `Succeed`/`Fail` are unguarded `UPDATE ... WHERE id = ?`
statements, so a terminal row is not immune to further change. -/
theorem fail_overwrites_succeeded_row :
    (applyOps opsToSucceeded Store.empty).jobs.map JobRow.status =
      ["succeeded"] ∧
    (applyOps (opsToSucceeded ++ opsFailAfter) Store.empty).jobs.map
      JobRow.status = ["failed"] := by
  refine ⟨by decide, by decide⟩

/-- C9 counterexample: a plan whose single item has an empty `id` (after
trimming) loads successfully — `ValidatePlanItem` never checks the item's
own `id` field — contradicting the claimed "only if" direction. -/
theorem loadPlan_accepts_empty_item_id :
    loadPlan planWithEmptyItemId = Except.ok planWithEmptyItemId ∧
    planWithEmptyItemId.items.map (fun i => trimSpace i.id) = [""] := by
  refine ⟨rfl, by decide⟩

/-- C10: when `EnqueueUnique` is called for a `(type, scheduled_at)` pair
that already has a row, the call returns the existing row's id with
`created = false`, leaves the store byte-for-byte unchanged — in
particular the new payload is discarded, and the stored row (with its
original payload) is still what a later lookup of the pair finds. -/
theorem enqueueUnique_existing_row_untouched (s : Store) (ty : String)
    (t : GoTime) (p : String) (r : JobRow)
    (h : s.jobs.find? (rowMatches ty t.sec) = some r) :
    enqueueUnique s ty t p = (r.id, false, s) ∧
    (enqueueUnique s ty t p).2.2.jobs.find? (rowMatches ty t.sec) = some r := by
  have he := enqueueUnique_found s ty t p r h
  exact ⟨he, by rw [he]; exact h⟩

/-- C10 witness: re-enqueueing `("x", second 5)` — even with a different
nanosecond component and payload — returns the stored row's id,
`created = false`, and the untouched store. -/
theorem enqueueUnique_existing_row_untouched_witness :
    enqueueUnique storeOneRow "x" ⟨5, 999999999⟩ "different" =
      (rowX.id, false, storeOneRow) ∧
    (enqueueUnique storeOneRow "x" ⟨5, 999999999⟩ "different").2.2.jobs.find?
      (rowMatches "x" (5 : Int)) = some rowX :=
  enqueueUnique_existing_row_untouched storeOneRow "x" ⟨5, 999999999⟩
    "different" rowX (by decide)

theorem matchingOutputs_cons (c : EnqCall) (rest : List EnqCall) (s : Store)
    (ty : String) (sec : Int) :
    matchingOutputs (c :: rest) s ty sec =
      (if callMatches ty sec c
        then [((enqueueUnique s c.jobType c.scheduledAt c.payload).1,
               (enqueueUnique s c.jobType c.scheduledAt c.payload).2.1)]
        else []) ++
      matchingOutputs rest (enqueueUnique s c.jobType c.scheduledAt c.payload).2.2
        ty sec := by
  by_cases hc : callMatches ty sec c <;>
    simp [matchingOutputs, enqueueSeq, List.filter_cons, hc]

theorem wellFormed_enqueue (s : Store) (hwf : WellFormedJobs s) (ty : String)
    (t : GoTime) (p : String) :
    WellFormedJobs (enqueueUnique s ty t p).2.2 := by
  cases hfind : s.jobs.find? (rowMatches ty t.sec) with
  | some r => rw [enqueueUnique_found s ty t p r hfind]; exact hwf
  | none =>
    rw [enqueueUnique_notFound s ty t p hfind]
    intro r hr
    rcases List.mem_append.mp hr with h | h
    · exact hwf r h
    · rw [List.mem_singleton.mp h]; rfl

theorem rowMatches_queuedRow (ty' : String) (sec' : Int) (ty : String)
    (sec : Int) (p : String) :
    rowMatches ty' sec' (queuedRow ty sec p) = (ty == ty' && sec == sec') := rfl

/-- Sequences of `EnqueueUnique` calls against a store that already holds
a row for the pair: the row count for the pair never changes, and every
call targeting the pair returns `((type, sec), created = false)`. -/
theorem enqueueSeq_pair_present (ty : String) (sec : Int) :
    ∀ (calls : List EnqCall) (s : Store), WellFormedJobs s →
      0 < countRows s ty sec →
      countRows (enqueueSeq calls s).2 ty sec = countRows s ty sec ∧
      matchingOutputs calls s ty sec =
        List.replicate ((calls.filter (callMatches ty sec)).length)
          ((ty, sec), false) := by
  intro calls
  induction calls with
  | nil => intro s hwf hpos; exact ⟨rfl, rfl⟩
  | cons c rest ih =>
    intro s hwf hpos
    by_cases hc : callMatches ty sec c
    · obtain ⟨hty, hsec⟩ : c.jobType = ty ∧ c.scheduledAt.sec = sec := by
        simpa [callMatches] using hc
      have hne : s.jobs.filter (rowMatches ty sec) ≠ [] := by
        intro hq
        rw [countRows, hq] at hpos
        simp at hpos
      obtain ⟨x, hx⟩ := List.exists_mem_of_ne_nil _ hne
      obtain ⟨hxmem, hxp⟩ := List.mem_filter.mp hx
      have hsome : (s.jobs.find? (rowMatches ty sec)).isSome :=
        List.find?_isSome.mpr ⟨x, hxmem, hxp⟩
      obtain ⟨r, hfind⟩ := Option.isSome_iff_exists.mp hsome
      have hfind' : s.jobs.find? (rowMatches c.jobType c.scheduledAt.sec) =
          some r := by rw [hty, hsec]; exact hfind
      have heq := enqueueUnique_found s c.jobType c.scheduledAt c.payload r hfind'
      have hrid : r.id = (ty, sec) := by
        have hpr := List.find?_some hfind
        obtain ⟨h1, h2⟩ : r.jobType = ty ∧ r.scheduledAt = sec := by
          simpa [rowMatches] using hpr
        rw [hwf r (List.mem_of_find?_eq_some hfind), h1, h2]
      obtain ⟨ihc, iho⟩ := ih s hwf hpos
      constructor
      · rw [enqueueSeq]
        simp only [heq]
        exact ihc
      · rw [matchingOutputs_cons]
        simp only [heq, if_pos hc, List.filter_cons, hc]
        rw [iho, hrid]
        simp [List.replicate_succ]
    · have hmo := matchingOutputs_cons c rest s ty sec
      cases hfind : s.jobs.find? (rowMatches c.jobType c.scheduledAt.sec) with
      | some r =>
        have heq := enqueueUnique_found s c.jobType c.scheduledAt c.payload r hfind
        obtain ⟨ihc, iho⟩ := ih s hwf hpos
        constructor
        · rw [enqueueSeq]; simp only [heq]; exact ihc
        · rw [hmo]
          simp only [heq, if_neg hc, List.nil_append, List.filter_cons]
          exact iho
      | none =>
        have heq := enqueueUnique_notFound s c.jobType c.scheduledAt c.payload hfind
        set s' : Store :=
          { s with jobs := s.jobs ++
              [queuedRow c.jobType c.scheduledAt.sec c.payload] } with hs'
        have hwf' : WellFormedJobs s' := by
          have := wellFormed_enqueue s hwf c.jobType c.scheduledAt c.payload
          rw [heq] at this
          exact this
        have hcount' : countRows s' ty sec = countRows s ty sec := by
          simp only [hs', countRows, List.filter_append,
            List.length_append]
          have : rowMatches ty sec
              (queuedRow c.jobType c.scheduledAt.sec c.payload) = false := by
            rw [rowMatches_queuedRow]
            simpa [callMatches] using hc
          simp [List.filter_cons, this]
        obtain ⟨ihc, iho⟩ := ih s' hwf' (by rw [hcount']; exact hpos)
        constructor
        · rw [enqueueSeq]
          simp only [heq]
          rw [ihc, hcount']
        · rw [hmo]
          simp only [heq, if_neg hc, List.nil_append, List.filter_cons]
          exact iho

/-- Sequences of `EnqueueUnique` calls against a store with no row for
the pair: afterwards exactly one row exists iff some call targeted the
pair, the first such call returned `created = true` and every later one
`created = false`, all returning the id derived from the pair. -/
theorem enqueueSeq_pair_absent (ty : String) (sec : Int) :
    ∀ (calls : List EnqCall) (s : Store), WellFormedJobs s →
      countRows s ty sec = 0 →
      countRows (enqueueSeq calls s).2 ty sec =
        (if (calls.filter (callMatches ty sec)).length = 0 then 0 else 1) ∧
      matchingOutputs calls s ty sec =
        (if (calls.filter (callMatches ty sec)).length = 0 then []
         else ((ty, sec), true) ::
           List.replicate ((calls.filter (callMatches ty sec)).length - 1)
             ((ty, sec), false)) := by
  intro calls
  induction calls with
  | nil => intro s hwf h0; exact ⟨h0, rfl⟩
  | cons c rest ih =>
    intro s hwf h0
    by_cases hc : callMatches ty sec c
    · obtain ⟨hty, hsec⟩ : c.jobType = ty ∧ c.scheduledAt.sec = sec := by
        simpa [callMatches] using hc
      have hnone : s.jobs.find? (rowMatches ty sec) = none := by
        rw [List.find?_eq_none]
        intro a ha hpa
        have : a ∈ s.jobs.filter (rowMatches ty sec) :=
          List.mem_filter.mpr ⟨ha, hpa⟩
        rw [List.length_eq_zero.mp h0] at this
        cases this
      have hnone' : s.jobs.find? (rowMatches c.jobType c.scheduledAt.sec) =
          none := by rw [hty, hsec]; exact hnone
      have heq := enqueueUnique_notFound s c.jobType c.scheduledAt c.payload hnone'
      set s' : Store :=
        { s with jobs := s.jobs ++
            [queuedRow c.jobType c.scheduledAt.sec c.payload] } with hs'
      have hwf' : WellFormedJobs s' := by
        have := wellFormed_enqueue s hwf c.jobType c.scheduledAt c.payload
        rw [heq] at this
        exact this
      have hcount' : countRows s' ty sec = 1 := by
        simp only [hs', countRows, List.filter_append, List.length_append]
        have : rowMatches ty sec
            (queuedRow c.jobType c.scheduledAt.sec c.payload) = true := by
          rw [rowMatches_queuedRow, hty, hsec]
          simp
        rw [countRows] at h0
        simp [List.filter_cons, this, h0]
      obtain ⟨ihc, iho⟩ := enqueueSeq_pair_present ty sec rest s' hwf'
        (by rw [hcount']; exact Nat.one_pos)
      refine ⟨?_, ?_⟩
      · rw [enqueueSeq]
        simp only [heq]
        rw [ihc, hcount']
        simp [List.filter_cons, hc]
      · rw [matchingOutputs_cons]
        simp only [heq, if_pos hc, List.filter_cons, hc]
        rw [iho, hty, hsec]
        simp [List.replicate]
    · have hmo := matchingOutputs_cons c rest s ty sec
      cases hfind : s.jobs.find? (rowMatches c.jobType c.scheduledAt.sec) with
      | some r =>
        have heq := enqueueUnique_found s c.jobType c.scheduledAt c.payload r hfind
        obtain ⟨ihc, iho⟩ := ih s hwf h0
        constructor
        · rw [enqueueSeq]
          simp only [heq]
          rw [ihc]
          simp [List.filter_cons, hc]
        · rw [hmo]
          simp only [heq, if_neg hc, List.nil_append]
          rw [iho]
          simp [List.filter_cons, hc]
      | none =>
        have heq := enqueueUnique_notFound s c.jobType c.scheduledAt c.payload hfind
        set s' : Store :=
          { s with jobs := s.jobs ++
              [queuedRow c.jobType c.scheduledAt.sec c.payload] } with hs'
        have hwf' : WellFormedJobs s' := by
          have := wellFormed_enqueue s hwf c.jobType c.scheduledAt c.payload
          rw [heq] at this
          exact this
        have hcount' : countRows s' ty sec = 0 := by
          simp only [hs', countRows, List.filter_append, List.length_append]
          have : rowMatches ty sec
              (queuedRow c.jobType c.scheduledAt.sec c.payload) = false := by
            rw [rowMatches_queuedRow]
            simpa [callMatches] using hc
          rw [countRows] at h0
          simp [List.filter_cons, this, h0]
        obtain ⟨ihc, iho⟩ := ih s' hwf' hcount'
        constructor
        · rw [enqueueSeq]
          simp only [heq]
          rw [ihc]
          simp [List.filter_cons, hc]
        · rw [hmo]
          simp only [heq, if_neg hc, List.nil_append]
          rw [iho]
          simp [List.filter_cons, hc]

/-- C3: starting from an empty store, after any finite sequence of
`EnqueueUnique` calls and for every `(type, instant)` pair, exactly one
row with that type and second-truncated time exists iff some call
targeted the pair (zero otherwise); the first call for the pair returned
`created = true` and every subsequent one returned the same id — the one
derived from the pair — with `created = false`. -/
theorem enqueueUnique_pair_uniqueness (calls : List EnqCall) (ty : String)
    (sec : Int) :
    countRows (enqueueSeq calls Store.empty).2 ty sec =
      (if (calls.filter (callMatches ty sec)).length = 0 then 0 else 1) ∧
    matchingOutputs calls Store.empty ty sec =
      (if (calls.filter (callMatches ty sec)).length = 0 then []
       else ((ty, sec), true) ::
         List.replicate ((calls.filter (callMatches ty sec)).length - 1)
           ((ty, sec), false)) :=
  enqueueSeq_pair_absent ty sec calls Store.empty
    (by intro r hr; cases hr) rfl

theorem selectMin_cons_isSome (x : JobRow) (xs : List JobRow) :
    (selectMin (x :: xs)).isSome = true := by
  simp only [selectMin]
  cases selectMin xs with
  | none => rfl
  | some b => by_cases h : b.scheduledAt < x.scheduledAt <;> simp [h]

theorem selectMin_filter_none (p : JobRow → Bool) :
    ∀ l : List JobRow, selectMin (l.filter p) = none → ∀ r ∈ l, ¬ p r = true := by
  intro l
  induction l with
  | nil => intro _ r hr; cases hr
  | cons a rest ih =>
    intro h r hr
    rw [List.filter_cons] at h
    by_cases hpa : p a
    · rw [if_pos hpa] at h
      have := selectMin_cons_isSome a (rest.filter p)
      rw [h] at this
      cases this
    · rw [if_neg hpa] at h
      rcases List.mem_cons.mp hr with rfl | hr'
      · exact fun hc => hpa hc
      · exact ih h r hr'

/-- What the row returned by `ORDER BY scheduled_at ASC LIMIT 1` over the
filtered rows satisfies: it is a row of the list passing the filter, has
the minimal `scheduled_at` among passing rows, and every passing row
stored before it (smaller rowid) has a strictly larger `scheduled_at`. -/
theorem selectMin_filter_some (p : JobRow → Bool) :
    ∀ (l : List JobRow) (j : JobRow), selectMin (l.filter p) = some j →
      p j = true ∧
      (∃ pre post, l = pre ++ j :: post ∧
        ∀ r ∈ pre, p r = true → j.scheduledAt < r.scheduledAt) ∧
      (∀ r ∈ l, p r = true → j.scheduledAt ≤ r.scheduledAt) := by
  intro l
  induction l with
  | nil => intro j h; cases h
  | cons a rest ih =>
    intro j h
    rw [List.filter_cons] at h
    by_cases hpa : p a
    · rw [if_pos hpa] at h
      simp only [selectMin] at h
      cases hsm : selectMin (rest.filter p) with
      | none =>
        rw [hsm] at h
        injection h with h'
        subst h'
        have hrest := selectMin_filter_none p rest hsm
        refine ⟨hpa, ⟨[], rest, rfl, by intro r hr; cases hr⟩, ?_⟩
        intro r hr hpr
        rcases List.mem_cons.mp hr with rfl | hr'
        · exact le_refl _
        · exact absurd hpr (hrest r hr')
      | some b =>
        rw [hsm] at h
        have h2 : (if b.scheduledAt < a.scheduledAt then some b else some a) =
            some j := h
        obtain ⟨hpb, ⟨pre, post, hsplit, hstrict⟩, hmin⟩ := ih b hsm
        by_cases hba : b.scheduledAt < a.scheduledAt
        · rw [if_pos hba] at h2
          injection h2 with h'
          subst h'
          refine ⟨hpb, ⟨a :: pre, post, by simp [hsplit], ?_⟩, ?_⟩
          · intro r hr hpr
            rcases List.mem_cons.mp hr with rfl | hr'
            · exact hba
            · exact hstrict r hr' hpr
          · intro r hr hpr
            rcases List.mem_cons.mp hr with rfl | hr'
            · exact le_of_lt hba
            · exact hmin r hr' hpr
        · rw [if_neg hba] at h2
          injection h2 with h'
          subst h'
          refine ⟨hpa, ⟨[], rest, rfl, by intro r hr; cases hr⟩, ?_⟩
          intro r hr hpr
          rcases List.mem_cons.mp hr with rfl | hr'
          · exact le_refl _
          · exact le_trans (not_lt.mp hba) (hmin r hr' hpr)
    · rw [if_neg hpa] at h
      obtain ⟨hpj, ⟨pre, post, hsplit, hstrict⟩, hmin⟩ := ih j h
      refine ⟨hpj, ⟨a :: pre, post, by simp [hsplit], ?_⟩, ?_⟩
      · intro r hr hpr
        rcases List.mem_cons.mp hr with rfl | hr'
        · exact absurd hpr hpa
        · exact hstrict r hr' hpr
      · intro r hr hpr
        rcases List.mem_cons.mp hr with rfl | hr'
        · exact absurd hpr hpa
        · exact hmin r hr' hpr

/-- In a store with duplicate-free ids, the first (and only) row found by
an id lookup in the image of an id-preserving row update is the updated
original row. -/
theorem find?_id_map_update (f : JobRow → JobRow)
    (hf : ∀ r, (f r).id = r.id) :
    ∀ (l : List JobRow), (l.map JobRow.id).Nodup → ∀ r ∈ l,
      (l.map f).find? (fun x => x.id == r.id) = some (f r) := by
  intro l
  induction l with
  | nil => intro _ r hr; cases hr
  | cons a rest ih =>
    intro hnd r hr
    rw [List.map_cons, List.nodup_cons] at hnd
    rw [List.map_cons]
    rcases List.mem_cons.mp hr with rfl | hr'
    · rw [List.find?_cons_of_pos]
      simp [hf]
    · have hane : a.id ≠ r.id := by
        intro he
        exact hnd.1 (he ▸ List.mem_map_of_mem JobRow.id hr')
      rw [List.find?_cons_of_neg]
      · exact ih hnd.2 r hr'
      · simp [hf, hane]

/-- C4 amended: `ClaimNext` returns `none` and leaves the store unchanged
when no queued row is due; otherwise it claims a due queued row `j0` with
the minimal `scheduled_at` — breaking ties by rowid (insertion) order,
not by id — updating exactly that row to `running` with
`started_at = now`, the caller's `lease_owner` and
`lease_expires_at = now + lease_duration`, and returns the hydrated
updated row. -/
theorem claimNext_selects_earliest_due (s : Store) (now : Int)
    (owner : String) (leaseFor : Int)
    (hids : (s.jobs.map JobRow.id).Nodup) :
    ((claimNext s now owner leaseFor).1 = none →
      (claimNext s now owner leaseFor).2 = s ∧
      ∀ r ∈ s.jobs, ¬ eligible now r = true) ∧
    (∀ j, (claimNext s now owner leaseFor).1 = some j →
      ∃ j0 pre post, s.jobs = pre ++ j0 :: post ∧
        eligible now j0 = true ∧
        (∀ r ∈ s.jobs, eligible now r = true →
          j0.scheduledAt ≤ r.scheduledAt) ∧
        (∀ r ∈ pre, eligible now r = true →
          j0.scheduledAt < r.scheduledAt) ∧
        j = claimUpdate now owner leaseFor j0 ∧
        (claimNext s now owner leaseFor).2 =
          { s with jobs := s.jobs.map (fun r =>
              if r.id == j0.id then claimUpdate now owner leaseFor r
              else r) }) := by
  cases hsm : selectMin (s.jobs.filter (eligible now)) with
  | none =>
    constructor
    · intro _
      constructor
      · simp [claimNext, hsm]
      · exact selectMin_filter_none (eligible now) s.jobs hsm
    · intro j hj
      simp [claimNext, hsm] at hj
  | some j0 =>
    obtain ⟨hpj, ⟨pre, post, hsplit, hstrict⟩, hmin⟩ :=
      selectMin_filter_some (eligible now) s.jobs j0 hsm
    have hmem : j0 ∈ s.jobs := by
      rw [hsplit]
      exact List.mem_append.mpr (Or.inr (List.mem_cons_self _ _))
    have hfpres : ∀ r, ((fun r => if r.id == j0.id
        then claimUpdate now owner leaseFor r else r) r).id = r.id := by
      intro r
      by_cases hr : r.id == j0.id <;> simp [hr, claimUpdate]
    have hget : getJob
        { s with jobs := s.jobs.map (fun r =>
            if r.id == j0.id then claimUpdate now owner leaseFor r else r) }
        j0.id = some (claimUpdate now owner leaseFor j0) := by
      unfold getJob
      rw [find?_id_map_update _ hfpres s.jobs hids j0 hmem]
      simp
    constructor
    · intro hnone
      simp only [claimNext, hsm] at hnone
      rw [hget] at hnone
      cases hnone
    · intro j hj
      simp only [claimNext, hsm] at hj
      rw [hget] at hj
      injection hj with hj'
      refine ⟨j0, pre, post, hsplit, hpj, hmin, hstrict, hj'.symm, ?_⟩
      simp [claimNext, hsm]

/-- C4 amended, witness: in the two-row store the `"b"` job (first
inserted) is claimed; instantiating the theorem exhibits the split, the
minimality among due rows and the exact update. -/
theorem claimNext_selects_earliest_due_witness :
    ∃ j0 pre post, storeTwoTypesSameSecond.jobs = pre ++ j0 :: post ∧
      eligible 0 j0 = true ∧
      (∀ r ∈ storeTwoTypesSameSecond.jobs, eligible 0 r = true →
        j0.scheduledAt ≤ r.scheduledAt) ∧
      (∀ r ∈ pre, eligible 0 r = true →
        j0.scheduledAt < r.scheduledAt) ∧
      claimUpdate 0 "w" 30 rowB = claimUpdate 0 "w" 30 j0 ∧
      (claimNext storeTwoTypesSameSecond 0 "w" 30).2 =
        { storeTwoTypesSameSecond with
          jobs := storeTwoTypesSameSecond.jobs.map (fun r =>
            if r.id == j0.id then claimUpdate 0 "w" 30 r else r) } :=
  (claimNext_selects_earliest_due storeTwoTypesSameSecond 0 "w" 30
    (by decide)).2 (claimUpdate 0 "w" 30 rowB) (by decide)

theorem stepCount_watchTicks (T : Int) (k : Nat) (hk : 1 ≤ k) :
    stepCount (truncGo 30 T + 30) 30 (T + 30 * k) = k := by
  have h1 : T.fdiv 30 = T / 30 := Int.fdiv_eq_ediv T (by norm_num)
  have hdm : 30 * (T / 30) + T % 30 = T := Int.ediv_add_emod T 30
  have hr0 : 0 ≤ T % 30 := Int.emod_nonneg T (by norm_num)
  have hr30 : T % 30 < 30 := Int.emod_lt_of_pos T (by norm_num)
  rw [stepCount, truncGo, h1]
  rw [if_neg (by omega)]
  have harg : (T + 30 * (k : Int) - (30 * (T / 30) + 30)).toNat
      = (T % 30).toNat + 30 * (k - 1) := by omega
  rw [harg]
  have h30 : ((30 : Int)).toNat = 30 := rfl
  rw [h30, Nat.add_mul_div_left _ _ (by norm_num : 0 < 30)]
  rw [Nat.div_eq_of_lt (by omega)]
  omega

theorem stepList_watchTicks (T : Int) (k : Nat) (hk : 1 ≤ k) :
    stepList (truncGo 30 T + 30) 30 (T + 30 * k) =
      (List.range k).map (fun (i : Nat) => truncGo 30 T + 30 + 30 * (i : Int)) := by
  rw [stepList, stepCount_watchTicks T k hk]

/-- Folding `EnqueueUnique` over pairwise-distinct instants that are all
fresh for the store appends one queued row per instant, in order. -/
theorem foldl_enqueue_fresh (ty : String) (P : Int → String) :
    ∀ (ts : List Int) (s : Store),
      (∀ t ∈ ts, ∀ j ∈ s.jobs, rowMatches ty t j = false) →
      ts.Nodup →
      (ts.foldl (fun st t => (enqueueUnique st ty ⟨t, 0⟩ (P t)).2.2) s).jobs
        = s.jobs ++ ts.map (fun t => queuedRow ty t (P t)) := by
  intro ts
  induction ts with
  | nil => intro s _ _; simp
  | cons t rest ih =>
    intro s hfresh hnd
    rw [List.foldl_cons]
    have hnone : s.jobs.find? (rowMatches ty t) = none := by
      rw [List.find?_eq_none]
      intro j hj
      simp [hfresh t (List.mem_cons_self t rest) j hj]
    have heq := enqueueUnique_notFound s ty ⟨t, 0⟩ (P t) hnone
    rw [heq]
    obtain ⟨htnotin, hndrest⟩ := List.nodup_cons.mp hnd
    rw [ih _ ?_ hndrest]
    · simp
    · intro t' ht' j hj
      rcases List.mem_append.mp hj with hold | hnew
      · exact hfresh t' (List.mem_cons_of_mem t ht') j hold
      · rw [List.mem_singleton.mp hnew, rowMatches_queuedRow]
        have : t ≠ t' := fun he => htnotin (he ▸ ht')
        simp [this]

/-- C6 amended: from a store with no jobs, watermark `T` and
`now = T + k·30 s` (`k ≥ 1`), the 30-second trigger creates exactly `k`
queued `watch_tick` jobs, scheduled at the `k` aligned 30-second
boundaries in `(T, T + k·30 s]` — that is, at `30·(⌊T/30⌋ + 1) + 30·i`
for `i < k`; these equal `T + 30 s, …, T + k·30 s` exactly when `T` is
itself 30-second aligned. -/
theorem scheduleWatchTicks_density (s : Store) (T : Int) (k : Nat)
    (hjobs : s.jobs = []) (hk : 1 ≤ k) :
    (scheduleWatchTicks T (T + 30 * k) s).jobs =
      (List.range k).map (fun (i : Nat) =>
        queuedRow "watch_tick" (truncGo 30 T + 30 + 30 * (i : Int))
          (scheduledTimePayload (truncGo 30 T + 30 + 30 * (i : Int)))) ∧
    (scheduleWatchTicks T (T + 30 * k) s).jobs.length = k := by
  have hmain : (scheduleWatchTicks T (T + 30 * k) s).jobs =
      (List.range k).map (fun (i : Nat) =>
        queuedRow "watch_tick" (truncGo 30 T + 30 + 30 * (i : Int))
          (scheduledTimePayload (truncGo 30 T + 30 + 30 * (i : Int)))) := by
    rw [scheduleWatchTicks, stepList_watchTicks T k hk]
    rw [foldl_enqueue_fresh "watch_tick" scheduledTimePayload _ s ?_ ?_]
    · rw [hjobs]
      simp [List.map_map, Function.comp]
    · intro t _ j hj
      rw [hjobs] at hj
      cases hj
    · refine List.Nodup.map ?_ (List.nodup_range k)
      intro a b hab
      have hab' : truncGo 30 T + 30 + 30 * (a : Int) =
          truncGo 30 T + 30 + 30 * (b : Int) := hab
      have : (a : Int) = b := by linarith
      exact_mod_cast this
  exact ⟨hmain, by rw [hmain]; simp⟩

/-- C6 amended, witness: watermark 10, one 30-second step — the single
job lands on the aligned boundary 30. -/
theorem scheduleWatchTicks_density_witness :
    (scheduleWatchTicks 10 (10 + 30 * 1) Store.empty).jobs =
      (List.range 1).map (fun (i : Nat) =>
        queuedRow "watch_tick" (truncGo 30 10 + 30 + 30 * (i : Int))
          (scheduledTimePayload (truncGo 30 10 + 30 + 30 * (i : Int)))) ∧
    (scheduleWatchTicks 10 (10 + 30 * 1) Store.empty).jobs.length = 1 :=
  scheduleWatchTicks_density Store.empty 10 1 rfl (by decide)

/-- Updating rows in place with an id-, type- and schedule-preserving
function keeps the id-wellformedness and id-distinctness of the store. -/
theorem wf_nodup_map (s : Store) (g : JobRow → JobRow)
    (hid : ∀ r, (g r).id = r.id) (hty : ∀ r, (g r).jobType = r.jobType)
    (hsc : ∀ r, (g r).scheduledAt = r.scheduledAt)
    (hwf : WellFormedJobs s) (hnd : (s.jobs.map JobRow.id).Nodup) :
    WellFormedJobs { s with jobs := s.jobs.map g } ∧
    (({ s with jobs := s.jobs.map g } : Store).jobs.map JobRow.id).Nodup := by
  constructor
  · intro r' hr'
    obtain ⟨r, hr, rfl⟩ := List.mem_map.mp hr'
    rw [hid, hty, hsc]
    exact hwf r hr
  · show ((s.jobs.map g).map JobRow.id).Nodup
    rw [List.map_map]
    have : JobRow.id ∘ g = JobRow.id := funext hid
    rw [this]
    exact hnd

/-- In a store with duplicate-free ids, two member rows with the same id
are the same row. -/
theorem eq_of_mem_of_id_eq (l : List JobRow)
    (hnd : (l.map JobRow.id).Nodup) (a b : JobRow) (ha : a ∈ l) (hb : b ∈ l)
    (hab : a.id = b.id) : a = b := by
  have := List.inj_on_of_nodup_map hnd
  exact this ha hb hab

/-- A single store operation preserves id-wellformedness, id
distinctness, the "terminal rows have `finished_at`" invariant, and the
property that every row carrying a given id is terminal (together with
the existence of such a row). -/
theorem applyOp_preserves (s : Store) (op : StoreOp)
    (hwf : WellFormedJobs s) (hnd : (s.jobs.map JobRow.id).Nodup)
    (hfin : ∀ r ∈ s.jobs, (r.status = "succeeded" ∨ r.status = "failed") →
      r.finishedAt.isSome = true) :
    WellFormedJobs (applyOp s op) ∧
    ((applyOp s op).jobs.map JobRow.id).Nodup ∧
    (∀ r ∈ (applyOp s op).jobs,
      (r.status = "succeeded" ∨ r.status = "failed") →
      r.finishedAt.isSome = true) ∧
    (∀ x : JobId,
      (∀ r ∈ s.jobs, r.id = x →
        (r.status = "succeeded" ∨ r.status = "failed")) →
      (∃ r ∈ s.jobs, r.id = x) →
      ((∀ r ∈ (applyOp s op).jobs, r.id = x →
          (r.status = "succeeded" ∨ r.status = "failed")) ∧
        (∃ r ∈ (applyOp s op).jobs, r.id = x))) := by
  cases op with
  | enq ty t p =>
    cases hfind : s.jobs.find? (rowMatches ty t.sec) with
    | some r =>
      have heq := enqueueUnique_found s ty t p r hfind
      simp only [applyOp, heq]
      exact ⟨hwf, hnd, hfin, fun x hall hex => ⟨hall, hex⟩⟩
    | none =>
      have heq := enqueueUnique_notFound s ty t p hfind
      simp only [applyOp, heq]
      have hnotin : (ty, t.sec) ∉ s.jobs.map JobRow.id := by
        intro hmem
        obtain ⟨r, hrmem, hrid⟩ := List.mem_map.mp hmem
        have hwfr := hwf r hrmem
        have h2 : (r.jobType, r.scheduledAt) = (ty, t.sec) := by
          rw [← hwfr, hrid]
        have h3 : r.jobType = ty := congrArg Prod.fst h2
        have h4 : r.scheduledAt = t.sec := congrArg Prod.snd h2
        have h5 := List.find?_eq_none.mp hfind r hrmem
        apply h5
        simp [rowMatches, h3, h4]
      refine ⟨?_, ?_, ?_, ?_⟩
      · intro r hr
        rcases List.mem_append.mp hr with h | h
        · exact hwf r h
        · rw [List.mem_singleton.mp h]; rfl
      · show ((s.jobs ++ [queuedRow ty t.sec p]).map JobRow.id).Nodup
        rw [List.map_append]
        refine List.Nodup.append hnd (List.nodup_singleton _) ?_
        intro a ha hb
        rw [List.mem_singleton.mp hb] at ha
        exact hnotin ha
      · intro r hr hterm
        rcases List.mem_append.mp hr with h | h
        · exact hfin r h hterm
        · rw [List.mem_singleton.mp h] at hterm
          rcases hterm with h' | h' <;> simp [queuedRow] at h'
      · intro x hall hex
        have hxne : (ty, t.sec) ≠ x := by
          intro he
          obtain ⟨r, hrmem, hrid⟩ := hex
          apply hnotin
          rw [he, ← hrid]
          exact List.mem_map_of_mem JobRow.id hrmem
        constructor
        · intro r hr hid
          rcases List.mem_append.mp hr with h | h
          · exact hall r h hid
          · rw [List.mem_singleton.mp h] at hid
            exact absurd hid hxne
        · obtain ⟨r, hrmem, hrid⟩ := hex
          exact ⟨r, List.mem_append.mpr (Or.inl hrmem), hrid⟩
  | claimOp now owner lf =>
    cases hsm : selectMin (s.jobs.filter (eligible now)) with
    | none =>
      simp only [applyOp, claimNext, hsm]
      exact ⟨hwf, hnd, hfin, fun x hall hex => ⟨hall, hex⟩⟩
    | some j0 =>
      simp only [applyOp, claimNext, hsm]
      set g : JobRow → JobRow := fun r =>
        if r.id == j0.id then claimUpdate now owner lf r else r with hg
      have hid : ∀ r, (g r).id = r.id := by
        intro r; rw [hg]; by_cases h : r.id == j0.id <;> simp [h, claimUpdate]
      have hty : ∀ r, (g r).jobType = r.jobType := by
        intro r; rw [hg]; by_cases h : r.id == j0.id <;> simp [h, claimUpdate]
      have hsc : ∀ r, (g r).scheduledAt = r.scheduledAt := by
        intro r; rw [hg]; by_cases h : r.id == j0.id <;> simp [h, claimUpdate]
      obtain ⟨hwf', hnd'⟩ := wf_nodup_map s g hid hty hsc hwf hnd
      obtain ⟨hpj, ⟨pre, post, hsplit, _⟩, _⟩ :=
        selectMin_filter_some (eligible now) s.jobs j0 hsm
      have hj0mem : j0 ∈ s.jobs := by
        rw [hsplit]; exact List.mem_append.mpr (Or.inr (List.mem_cons_self _ _))
      have hj0q : j0.status = "queued" := by
        simp [eligible] at hpj
        exact hpj.1
      refine ⟨hwf', hnd', ?_, ?_⟩
      · intro r' hr' hterm
        obtain ⟨r, hr, rfl⟩ := List.mem_map.mp hr'
        by_cases h : r.id == j0.id
        · have hgr : g r = claimUpdate now owner lf r := by rw [hg]; simp [h]
          rw [hgr] at hterm
          rcases hterm with h' | h' <;> simp [claimUpdate] at h'
        · have hgr : g r = r := by rw [hg]; simp [h]
          rw [hgr] at hterm ⊢
          exact hfin r hr hterm
      · intro x hall hex
        have hj0ne : j0.id ≠ x := by
          intro he
          have := hall j0 hj0mem he
          rw [hj0q] at this
          rcases this with h' | h' <;> exact absurd h' (by decide)
        constructor
        · intro r' hr' hidx
          obtain ⟨r, hr, rfl⟩ := List.mem_map.mp hr'
          rw [hid] at hidx
          have hgr : g r = r := by
            rw [hg]
            have hne : (r.id == j0.id) = false := by
              simp only [beq_eq_false_iff_ne]
              intro he
              exact hj0ne (by rw [← he, hidx])
            simp [hne]
          rw [hgr]
          exact hall r hr hidx
        · obtain ⟨r, hrmem, hrid⟩ := hex
          exact ⟨g r, List.mem_map_of_mem g hrmem, by rw [hid]; exact hrid⟩
  | succeedOp id0 res fAt =>
    simp only [applyOp, succeed]
    set g : JobRow → JobRow := fun r =>
      if r.id == id0 then
        { r with
          status := "succeeded"
          finishedAt := some fAt
          resultJson := some res }
      else r with hg
    have hid : ∀ r, (g r).id = r.id := by
      intro r; rw [hg]; by_cases h : r.id == id0 <;> simp [h]
    have hty : ∀ r, (g r).jobType = r.jobType := by
      intro r; rw [hg]; by_cases h : r.id == id0 <;> simp [h]
    have hsc : ∀ r, (g r).scheduledAt = r.scheduledAt := by
      intro r; rw [hg]; by_cases h : r.id == id0 <;> simp [h]
    obtain ⟨hwf', hnd'⟩ := wf_nodup_map s g hid hty hsc hwf hnd
    refine ⟨hwf', hnd', ?_, ?_⟩
    · intro r' hr' hterm
      obtain ⟨r, hr, rfl⟩ := List.mem_map.mp hr'
      by_cases h : r.id == id0
      · have hgr : (g r).finishedAt = some fAt := by rw [hg]; simp [h]
        rw [hgr]
        rfl
      · have hgr : g r = r := by rw [hg]; simp [h]
        rw [hgr] at hterm ⊢
        exact hfin r hr hterm
    · intro x hall hex
      constructor
      · intro r' hr' hidx
        obtain ⟨r, hr, rfl⟩ := List.mem_map.mp hr'
        by_cases h : r.id == id0
        · have hgr : (g r).status = "succeeded" := by rw [hg]; simp [h]
          rw [hgr]
          left
          rfl
        · have hgr : g r = r := by rw [hg]; simp [h]
          rw [hgr] at hidx ⊢
          exact hall r hr hidx
      · obtain ⟨r, hrmem, hrid⟩ := hex
        exact ⟨g r, List.mem_map_of_mem g hrmem, by rw [hid]; exact hrid⟩
  | failOp id0 msg fAt =>
    simp only [applyOp, fail]
    set g : JobRow → JobRow := fun r =>
      if r.id == id0 then
        { r with
          status := "failed"
          finishedAt := some fAt
          resultJson := some (errorResultJson msg) }
      else r with hg
    have hid : ∀ r, (g r).id = r.id := by
      intro r; rw [hg]; by_cases h : r.id == id0 <;> simp [h]
    have hty : ∀ r, (g r).jobType = r.jobType := by
      intro r; rw [hg]; by_cases h : r.id == id0 <;> simp [h]
    have hsc : ∀ r, (g r).scheduledAt = r.scheduledAt := by
      intro r; rw [hg]; by_cases h : r.id == id0 <;> simp [h]
    obtain ⟨hwf', hnd'⟩ := wf_nodup_map s g hid hty hsc hwf hnd
    refine ⟨hwf', hnd', ?_, ?_⟩
    · intro r' hr' hterm
      obtain ⟨r, hr, rfl⟩ := List.mem_map.mp hr'
      by_cases h : r.id == id0
      · have hgr : (g r).finishedAt = some fAt := by rw [hg]; simp [h]
        rw [hgr]
        rfl
      · have hgr : g r = r := by rw [hg]; simp [h]
        rw [hgr] at hterm ⊢
        exact hfin r hr hterm
    · intro x hall hex
      constructor
      · intro r' hr' hidx
        obtain ⟨r, hr, rfl⟩ := List.mem_map.mp hr'
        by_cases h : r.id == id0
        · have hgr : (g r).status = "failed" := by rw [hg]; simp [h]
          rw [hgr]
          right
          rfl
        · have hgr : g r = r := by rw [hg]; simp [h]
          rw [hgr] at hidx ⊢
          exact hall r hr hidx
      · obtain ⟨r, hrmem, hrid⟩ := hex
        exact ⟨g r, List.mem_map_of_mem g hrmem, by rw [hid]; exact hrid⟩

/-- `applyOp_preserves`, extended along a whole operation sequence. -/
theorem applyOps_preserves (ops : List StoreOp) :
    ∀ (s : Store), WellFormedJobs s → (s.jobs.map JobRow.id).Nodup →
      (∀ r ∈ s.jobs, (r.status = "succeeded" ∨ r.status = "failed") →
        r.finishedAt.isSome = true) →
      (WellFormedJobs (applyOps ops s) ∧
       ((applyOps ops s).jobs.map JobRow.id).Nodup ∧
       (∀ r ∈ (applyOps ops s).jobs,
         (r.status = "succeeded" ∨ r.status = "failed") →
         r.finishedAt.isSome = true) ∧
       (∀ x : JobId,
         (∀ r ∈ s.jobs, r.id = x →
           (r.status = "succeeded" ∨ r.status = "failed")) →
         (∃ r ∈ s.jobs, r.id = x) →
         ((∀ r ∈ (applyOps ops s).jobs, r.id = x →
             (r.status = "succeeded" ∨ r.status = "failed")) ∧
           (∃ r ∈ (applyOps ops s).jobs, r.id = x)))) := by
  induction ops with
  | nil =>
    intro s hwf hnd hfin
    exact ⟨hwf, hnd, hfin, fun x hall hex => ⟨hall, hex⟩⟩
  | cons op rest ih =>
    intro s hwf hnd hfin
    obtain ⟨hwf1, hnd1, hfin1, hpers1⟩ := applyOp_preserves s op hwf hnd hfin
    obtain ⟨hwf2, hnd2, hfin2, hpers2⟩ := ih (applyOp s op) hwf1 hnd1 hfin1
    refine ⟨hwf2, hnd2, hfin2, ?_⟩
    intro x hall hex
    obtain ⟨hall1, hex1⟩ := hpers1 x hall hex
    exact hpers2 x hall1 hex1

/-- C8 amended: for every sequence of store operations from the empty
store, a row with status `succeeded` or `failed` always has `finished_at`
set, and once a row is terminal it never returns to `queued` or
`running` under any further operations — `EnqueueUnique` never touches
existing rows and `ClaimNext` only claims queued rows.  (Its terminal
status itself is not immutable: an unguarded `Succeed`/`Fail` call can
overwrite it with the other terminal status, which is the corrected part
of the claim.) -/
theorem store_terminal_invariants (ops extra : List StoreOp) :
    (∀ r ∈ (applyOps ops Store.empty).jobs,
      (r.status = "succeeded" ∨ r.status = "failed") →
      r.finishedAt.isSome = true) ∧
    (∀ r ∈ (applyOps ops Store.empty).jobs,
      (r.status = "succeeded" ∨ r.status = "failed") →
      ∀ r' ∈ (applyOps (ops ++ extra) Store.empty).jobs, r'.id = r.id →
        (r'.status = "succeeded" ∨ r'.status = "failed")) := by
  have hbase := applyOps_preserves ops Store.empty
    (by intro r hr; cases hr) (by constructor)
    (by intro r hr; cases hr)
  obtain ⟨hwf1, hnd1, hfin1, _⟩ := hbase
  refine ⟨hfin1, ?_⟩
  intro r hr hterm r' hr' hid'
  have hall : ∀ r'' ∈ (applyOps ops Store.empty).jobs, r''.id = r.id →
      (r''.status = "succeeded" ∨ r''.status = "failed") := by
    intro r'' hr'' hid''
    have : r'' = r :=
      eq_of_mem_of_id_eq (applyOps ops Store.empty).jobs hnd1 r'' r hr'' hr hid''
    rw [this]
    exact hterm
  have hsplit : applyOps (ops ++ extra) Store.empty =
      applyOps extra (applyOps ops Store.empty) := by
    simp [applyOps, List.foldl_append]
  obtain ⟨_, _, _, hpers⟩ := applyOps_preserves extra (applyOps ops Store.empty)
    hwf1 hnd1 hfin1
  obtain ⟨hall2, _⟩ := hpers r.id hall ⟨r, hr, rfl⟩
  rw [hsplit] at hr'
  exact hall2 r' hr' hid'

/-- C8 amended, witness: after enqueue–claim–succeed the single row is
terminal with `finished_at` set, and after a further `Fail` the row with
the same id is still terminal (here: `failed`). -/
theorem store_terminal_invariants_witness :
    (rowSucceededW.status = "succeeded" ∨ rowSucceededW.status = "failed") ∧
    rowSucceededW.finishedAt.isSome = true ∧
    (rowFailedW.status = "succeeded" ∨ rowFailedW.status = "failed") := by
  have h := store_terminal_invariants opsToSucceeded opsFailAfter
  have hmem : rowSucceededW ∈ (applyOps opsToSucceeded Store.empty).jobs := by
    decide
  have hmem' : rowFailedW ∈
      (applyOps (opsToSucceeded ++ opsFailAfter) Store.empty).jobs := by
    decide
  have hterm : rowSucceededW.status = "succeeded" ∨
      rowSucceededW.status = "failed" := Or.inl rfl
  exact ⟨hterm, h.1 rowSucceededW hmem hterm,
    h.2 rowSucceededW hmem hterm rowFailedW hmem' (by decide)⟩

theorem validatePlanItem_none_iff (item : PlanItem) :
    validatePlanItem item = none ↔
      (trimSpace item.objectiveId ≠ "" ∧ trimSpace item.krId ≠ "" ∧
       trimSpace item.task ≠ "" ∧ trimSpace item.agentRole ≠ "" ∧
       trimSpace item.expectedMetricChange.metricKey ≠ "" ∧
       (trimSpace item.expectedMetricChange.direction = "increase" ∨
        trimSpace item.expectedMetricChange.direction = "decrease")) := by
  simp only [validatePlanItem]
  split_ifs with h1 h2 h3 h4 h5 h6 h7
  · simp [h1]
  · simp [h1, h2]
  · simp [h1, h2, h3]
  · simp [h1, h2, h3, h4]
  · simp [h1, h2, h3, h4, h5]
  · simp [h1, h2, h3, h4, h5, h6]
  · constructor
    · intro h; cases h
    · intro hc
      rcases hc.2.2.2.2.2 with h | h
      · exact absurd h h7.1
      · exact absurd h h7.2
  · push_neg at h7
    constructor
    · intro _
      refine ⟨h1, h2, h3, h4, h5, ?_⟩
      by_cases hdir : trimSpace item.expectedMetricChange.direction = "increase"
      · exact Or.inl hdir
      · exact Or.inr (h7 hdir)
    · intro _; rfl

theorem validatePlanItems_none_iff (items : List PlanItem) :
    validatePlanItems items = none ↔
      ∀ i ∈ items, validatePlanItem i = none := by
  induction items with
  | nil => simp [validatePlanItems]
  | cons a rest ih =>
    simp only [validatePlanItems]
    cases h : validatePlanItem a with
    | some e => simp [h]
    | none => simp [h, ih]

/-- C9 amended: loading a parsed plan succeeds if and only if the plan's
`id` and `as_of` are non-empty after trimming, it has at least one item,
and every item's `objective_id`, `kr_id`, `task`, `agent_role` and
`expected_metric_change.metric_key` are non-empty after trimming, with
the trimmed direction exactly `"increase"` or `"decrease"`.  The item's
own `id` field is not validated — the claim's item-`id` rule is not among
the checks — and a plan violating any performed check is rejected with an
error and no plan value. -/
theorem loadPlan_ok_iff (p : Plan) :
    loadPlan p = Except.ok p ↔
      (trimSpace p.id ≠ "" ∧ trimSpace p.asOf ≠ "" ∧ p.items ≠ [] ∧
       ∀ item ∈ p.items,
         trimSpace item.objectiveId ≠ "" ∧ trimSpace item.krId ≠ "" ∧
         trimSpace item.task ≠ "" ∧ trimSpace item.agentRole ≠ "" ∧
         trimSpace item.expectedMetricChange.metricKey ≠ "" ∧
         (trimSpace item.expectedMetricChange.direction = "increase" ∨
          trimSpace item.expectedMetricChange.direction = "decrease")) := by
  have hload : loadPlan p = Except.ok p ↔ validatePlan p = none := by
    unfold loadPlan
    cases h : validatePlan p <;> simp [h]
  rw [hload]
  unfold validatePlan
  split_ifs with h1 h2 h3
  · simp [h1]
  · simp [h1, h2]
  · simp only [List.length_eq_zero] at h3
    simp [h1, h2, h3]
  · simp only [List.length_eq_zero] at h3
    rw [validatePlanItems_none_iff]
    constructor
    · intro h
      refine ⟨h1, h2, h3, fun item hitem => ?_⟩
      exact (validatePlanItem_none_iff item).mp (h item hitem)
    · intro hc i hi
      exact (validatePlanItem_none_iff i).mpr (hc.2.2.2 i hi)

end Okrchestra
